import Mathlib

/-!
# Verification of the Devils-Advocate single-page app core logic

Shallow embedding of the application logic in `src/app/page.tsx`:
the response extractor (`safeParseArray`, `extractJson`), the context
composer (`buildContext`), the prompt builder (`buildPrompt`), the
revision store (`recordRevision`, history handling in `handleAnalyze`),
the context re-splitting of `handleUseRevision`, and the session state
machine (`step`).

The JavaScript platform pieces the code calls into (`String.prototype.trim`,
`String.prototype.split`, `String.prototype.replace`, `Array.prototype.join`,
`JSON.parse`, `String(...)` coercion, the regex `/\x7b[\s\S]*\x7d/`) are
modelled explicitly below, faithful to their ECMAScript behaviour on the
inputs that occur here.  `JSON.parse` is modelled by a recursive-descent
parser; its number grammar is restricted to integers (no claim involves a
non-integer number) and a `\uXXXX` escape is decoded as a single code point
(no claim involves surrogate pairs).
-/

/-! ## JavaScript string primitives -/

/-- The whitespace class used by `String.prototype.trim`
(the members that can actually occur in this app's strings). -/
def isJsWs (c : Char) : Bool :=
  c == ' ' || c == '\t' || c == '\n' || c == '\r' || c == '\x0b' ||
    c == '\x0c' || c == '\xa0' || c == '\uFEFF'

/-- `trim` on a character list: drop leading and trailing whitespace. -/
def trimL (l : List Char) : List Char :=
  ((l.dropWhile isJsWs).reverse.dropWhile isJsWs).reverse

/-- JavaScript `String.prototype.trim`. -/
def jsTrim (s : String) : String := ⟨trimL s.data⟩

/-- JavaScript `Array.prototype.join("\n")` on an array of strings. -/
def joinNl : List String → String
  | [] => ""
  | [x] => x
  | x :: y :: rest => x ++ "\n" ++ joinNl (y :: rest)

/-- JavaScript `String.prototype.split("\n")` on a character list:
`""` splits to `[""]`, separators are single newline characters. -/
def splitNl : List Char → List (List Char)
  | [] => [[]]
  | c :: rest =>
    if c = '\n' then [] :: splitNl rest
    else
      match splitNl rest with
      | [] => [[c]]
      | h :: t => (c :: h) :: t

/-- JavaScript `String.prototype.replace(pat, "")` with a string pattern:
remove the first occurrence of `pat` (no-op when `pat` does not occur). -/
def replaceFirst : List Char → List Char → List Char
  | [], _ => []
  | c :: rest, pat =>
    if pat.isPrefixOf (c :: rest) then (c :: rest).drop pat.length
    else c :: replaceFirst rest pat

/-! ## JSON values and JavaScript coercions -/

/-- JSON values, as produced by `JSON.parse`. -/
inductive Json where
  | null : Json
  | bool : Bool → Json
  | num : Int → Json
  | str : String → Json
  | arr : List Json → Json
  | obj : List (String × Json) → Json

/-- JavaScript `String(v)` conversion of a parsed JSON value, fuel-indexed
for nested arrays (`Array.prototype.toString` joins with `","`, rendering
`null` elements as the empty string). -/
def jsToStringF (fuel : Nat) : Json → String
  | .null => "null"
  | .bool b => cond b "true" "false"
  | .num n => toString n
  | .str s => s
  | .obj _ => "[object Object]"
  | .arr l =>
    match fuel with
    | 0 => ""
    | f + 1 =>
      String.intercalate "," (l.map fun j =>
        match j with
        | .null => ""
        | j => jsToStringF f j)

mutual

/-- Size of a JSON value, used as a fuel bound for `jsToString`
(only array nesting consumes fuel there, so objects count as `1`). -/
def jsonSize : Json → Nat
  | .null => 1
  | .bool _ => 1
  | .num _ => 1
  | .str _ => 1
  | .obj _ => 1
  | .arr l => jsonSizeL l + 1

/-- Size of a list of JSON values. -/
def jsonSizeL : List Json → Nat
  | [] => 0
  | j :: t => jsonSize j + jsonSizeL t

end

/-- JavaScript `String(v)`; `jsonSize` bounds the array-nesting depth. -/
def jsToString (j : Json) : String := jsToStringF (jsonSize j) j

/-- JavaScript property access `obj[key]` on a parsed JSON value: `none`
models `undefined` (non-object receiver or missing key); with duplicate
keys `JSON.parse` keeps the last occurrence. -/
def getField : Json → String → Option Json
  | .obj fields, k => ((fields.filter (fun p => p.1 == k)).map Prod.snd).getLast?
  | _, _ => none

/-! ## JSON.parse model -/

/-- JSON whitespace (`ws` in the JSON grammar). -/
def isJsonWs (c : Char) : Bool :=
  c == ' ' || c == '\t' || c == '\n' || c == '\r'

def skipWs (l : List Char) : List Char := l.dropWhile isJsonWs

/-- Value of a hexadecimal digit. -/
def hexVal (c : Char) : Option Nat :=
  if '0' ≤ c ∧ c ≤ '9' then some (c.toNat - '0'.toNat)
  else if 'a' ≤ c ∧ c ≤ 'f' then some (c.toNat - 'a'.toNat + 10)
  else if 'A' ≤ c ∧ c ≤ 'F' then some (c.toNat - 'A'.toNat + 10)
  else none

/-- Decoding of a single-character JSON string escape. -/
def escDecode (c : Char) : Option Char :=
  if c = '"' then some '"'
  else if c = '\\' then some '\\'
  else if c = '/' then some '/'
  else if c = 'n' then some '\n'
  else if c = 't' then some '\t'
  else if c = 'r' then some '\r'
  else if c = 'b' then some '\x08'
  else if c = 'f' then some '\x0c'
  else none

/-- Parse the body of a JSON string (the opening quote already consumed);
returns the decoded characters and the input after the closing quote.
Raw control characters are rejected, as in `JSON.parse`. -/
def parseStringBody : List Char → Option (List Char × List Char)
  | [] => none
  | c :: rest =>
    if c = '"' then some ([], rest)
    else if c = '\\' then
      match rest with
      | [] => none
      | e :: rest2 =>
        if e = 'u' then
          match rest2 with
          | h1 :: h2 :: h3 :: h4 :: rest3 =>
            match hexVal h1, hexVal h2, hexVal h3, hexVal h4 with
            | some v1, some v2, some v3, some v4 =>
              (parseStringBody rest3).map fun (cs, r) =>
                (Char.ofNat (((v1 * 16 + v2) * 16 + v3) * 16 + v4) :: cs, r)
            | _, _, _, _ => none
          | _ => none
        else
          match escDecode e with
          | some d => (parseStringBody rest2).map fun (cs, r) => (d :: cs, r)
          | none => none
    else if c.toNat < 32 then none
    else (parseStringBody rest).map fun (cs, r) => (c :: cs, r)

/-- Digits-to-number accumulation. -/
def natFromDigits (ds : List Char) : Nat :=
  ds.foldl (fun n c => n * 10 + (c.toNat - '0'.toNat)) 0

/-- Parse a JSON number (integer grammar). -/
def parseNum (l : List Char) : Option (Json × List Char) :=
  match l with
  | [] => none
  | c :: rest =>
    if c = '-' then
      let ds := rest.takeWhile Char.isDigit
      if ds.isEmpty then none
      else some (.num (-(Int.ofNat (natFromDigits ds))), rest.drop ds.length)
    else if c.isDigit then
      let ds := (c :: rest).takeWhile Char.isDigit
      some (.num (Int.ofNat (natFromDigits ds)), (c :: rest).drop ds.length)
    else none

/-- Which production the fuel-indexed JSON parser is working on:
a value, the `, value` tail of an array, a single `"key" : value`
member, or the `, member` tail of an object. -/
inductive PK where
  | val : PK
  | elems : List Json → PK
  | member : PK
  | members : List (String × Json) → PK

/-- Intermediate parse results, one per production kind. -/
inductive PRes where
  | v : Json → PRes
  | es : List Json → PRes
  | kv : String → Json → PRes
  | ms : List (String × Json) → PRes

/-- Fuel-indexed recursive-descent JSON parser (one function so that the
recursion is structural on the fuel and reduces in the kernel). -/
def parseAux : Nat → PK → List Char → Option (PRes × List Char)
  | 0, _, _ => none
  | fuel + 1, k, l =>
    match k with
    | .val =>
      match skipWs l with
      | [] => none
      | c :: rest =>
        if c = '"' then
          match parseStringBody rest with
          | some (cs, r) => some (.v (.str ⟨cs⟩), r)
          | none => none
        else if c = '[' then
          match skipWs rest with
          | [] => none
          | c1 :: l1 =>
            if c1 = ']' then some (.v (.arr []), l1)
            else
              match parseAux fuel .val (c1 :: l1) with
              | some (.v v, r) =>
                match parseAux fuel (.elems [v]) r with
                | some (.es vs, r2) => some (.v (.arr vs), r2)
                | _ => none
              | _ => none
        else if c = '\x7b' then
          match skipWs rest with
          | [] => none
          | c1 :: l1 =>
            if c1 = '\x7d' then some (.v (.obj []), l1)
            else
              match parseAux fuel .member (c1 :: l1) with
              | some (.kv key v, r) =>
                match parseAux fuel (.members [(key, v)]) r with
                | some (.ms ms, r2) => some (.v (.obj ms), r2)
                | _ => none
              | _ => none
        else if c = 'n' then
          match rest with
          | 'u' :: 'l' :: 'l' :: r => some (.v .null, r)
          | _ => none
        else if c = 't' then
          match rest with
          | 'r' :: 'u' :: 'e' :: r => some (.v (.bool true), r)
          | _ => none
        else if c = 'f' then
          match rest with
          | 'a' :: 'l' :: 's' :: 'e' :: r => some (.v (.bool false), r)
          | _ => none
        else
          match parseNum (c :: rest) with
          | some (j, r) => some (.v j, r)
          | none => none
    | .member =>
      match skipWs l with
      | [] => none
      | c :: rest =>
        if c = '"' then
          match parseStringBody rest with
          | some (kcs, r) =>
            match skipWs r with
            | [] => none
            | c2 :: r2 =>
              if c2 = ':' then
                match parseAux fuel .val r2 with
                | some (.v v, r3) => some (.kv ⟨kcs⟩ v, r3)
                | _ => none
              else none
          | none => none
        else none
    | .elems acc =>
      match skipWs l with
      | [] => none
      | c :: rest =>
        if c = ']' then some (.es acc, rest)
        else if c = ',' then
          match parseAux fuel .val rest with
          | some (.v v, r) => parseAux fuel (.elems (acc ++ [v])) r
          | _ => none
        else none
    | .members acc =>
      match skipWs l with
      | [] => none
      | c :: rest =>
        if c = '\x7d' then some (.ms acc, rest)
        else if c = ',' then
          match parseAux fuel .member rest with
          | some (.kv key v, r) => parseAux fuel (.members (acc ++ [(key, v)])) r
          | _ => none
        else none

/-- `JSON.parse` on a character list: one JSON value, surrounding
whitespace allowed, nothing else. -/
def parseJson (l : List Char) : Option Json :=
  match parseAux (l.length + 1) .val l with
  | some (.v j, rest) => if skipWs rest = [] then some j else none
  | _ => none

/-! ## The response extractor (`safeParseArray`, `extractJson`) -/

/-- The five-field critique structure (`AnalysisResponse` in `page.tsx`). -/
structure AnalysisResponse where
  assumptions : List String
  counterArguments : List String
  failurePoints : List String
  uncomfortableQuestions : List String
  upgradeSuggestions : List String
deriving DecidableEq, Repr

/-- `safeParseArray` from `page.tsx`.  The argument is the accessed field
value, `none` modelling `undefined`:
arrays map each element through `String(...)` then drop falsy (empty)
strings; a string whose trim is non-empty yields its trimmed singleton;
everything else yields `[]`. -/
def safeParseArray : Option Json → List String
  | some (.arr items) => (items.map jsToString).filter (fun s => !(s == ""))
  | some (.str s) => if (jsTrim s).length > 0 then [jsTrim s] else []
  | _ => []

/-- The span matched by the greedy regex `/\x7b[\s\S]*\x7d/`:
from the first `\x7b` through the last following `\x7d`, provided the
match is at least two characters (the regex consumes both braces). -/
def braceSpan (l : List Char) : Option (List Char) :=
  let l1 := l.dropWhile (fun c => !(c == '\x7b'))
  let l2 := ((l1.reverse.dropWhile (fun c => !(c == '\x7d')))).reverse
  if 2 ≤ l2.length then some l2 else none

/-- `extractJson` from `page.tsx`: regex-match a brace span, `JSON.parse`
it, and build the five-field record through `safeParseArray`. -/
def extractJson (text : String) : Option AnalysisResponse :=
  match braceSpan text.data with
  | none => none
  | some span =>
    match parseJson span with
    | none => none
    | some parsed =>
      some
        { assumptions := safeParseArray (getField parsed "assumptions")
          counterArguments := safeParseArray (getField parsed "counterArguments")
          failurePoints := safeParseArray (getField parsed "failurePoints")
          uncomfortableQuestions := safeParseArray (getField parsed "uncomfortableQuestions")
          upgradeSuggestions := safeParseArray (getField parsed "upgradeSuggestions") }

/-! ## JSON serialization (the round-trip claim's `JSON.stringify` side) -/

/-- Lower-case hexadecimal digit character. -/
def hexDigit (n : Nat) : Char :=
  if n < 10 then Char.ofNat ('0'.toNat + n) else Char.ofNat ('a'.toNat + n - 10)

/-- `JSON.stringify` escaping of one string character. -/
def escChar (c : Char) : List Char :=
  if c = '"' then ['\\', '"']
  else if c = '\\' then ['\\', '\\']
  else if c = '\n' then ['\\', 'n']
  else if c = '\r' then ['\\', 'r']
  else if c = '\t' then ['\\', 't']
  else if c = '\x08' then ['\\', 'b']
  else if c = '\x0c' then ['\\', 'f']
  else if c.toNat < 32 then
    ['\\', 'u', '0', '0', hexDigit (c.toNat / 16), hexDigit (c.toNat % 16)]
  else [c]

/-- Escaped serialization of a character list. -/
def escListL : List Char → List Char
  | [] => []
  | c :: cs => escChar c ++ escListL cs

/-- Serialized JSON string. -/
def serStr (s : String) : List Char := '"' :: escListL s.data ++ ['"']

/-- The `, "item"` tail of a serialized string array. -/
def serItems : List String → List Char
  | [] => []
  | s :: t => ',' :: serStr s ++ serItems t

/-- Serialized JSON array of strings. -/
def serArr : List String → List Char
  | [] => ['[', ']']
  | s :: t => '[' :: serStr s ++ serItems t ++ [']']

/-- The `, "key": [...]` tail of a serialized object. -/
def serMembers : List (String × List String) → List Char
  | [] => []
  | (k, v) :: t => ',' :: serStr k ++ ':' :: serArr v ++ serMembers t

/-- Interior (between the braces) of the serialized five-field record. -/
def serInner (a b c d e : List String) : List Char :=
  serStr "assumptions" ++ ':' :: serArr a ++
    serMembers
      [("counterArguments", b), ("failurePoints", c),
       ("uncomfortableQuestions", d), ("upgradeSuggestions", e)]

/-- Serialized five-field record, exactly as `JSON.stringify` renders the
object `\x7b assumptions: a, counterArguments: b, ... \x7d`. -/
def serRecordL (a b c d e : List String) : List Char :=
  '\x7b' :: serInner a b c d e ++ ['\x7d']

/-- `JSON.stringify` of the five-field record, as a string. -/
def serializeRecord (a b c d e : List String) : String :=
  ⟨serRecordL a b c d e⟩

/-! ## Context composer and prompt builder -/

/-- `buildContext` from `page.tsx`: one labelled line per field whose
trimmed value is truthy (non-empty), joined by `"\n"`. -/
def buildContext (goal audience constraints : String) : String :=
  let lines :=
    [if jsTrim goal ≠ "" then "Goal: " ++ jsTrim goal else "",
     if jsTrim audience ≠ "" then "Audience: " ++ jsTrim audience else "",
     if jsTrim constraints ≠ "" then "Constraints: " ++ jsTrim constraints else ""]
  joinNl (lines.filter (fun s => s ≠ ""))

/-- The context composer as §4.1/§8 of the specification words it: the
labelled line for each field with non-empty trimmed value, in the fixed
order goal, audience, constraints, joined with newlines. -/
def contextSpec (goal audience constraints : String) : String :=
  joinNl
    ((if jsTrim goal ≠ "" then ["Goal: " ++ jsTrim goal] else []) ++
     (if jsTrim audience ≠ "" then ["Audience: " ++ jsTrim audience] else []) ++
     (if jsTrim constraints ≠ "" then ["Constraints: " ++ jsTrim constraints] else []))

/-- `buildPrompt` from `page.tsx` (the template literal, written with
explicit concatenation; `\x7b`/`\x7d` escape the braces of the JSON shape
footer). -/
def buildPrompt (idea context mode : String) (intensity : Nat)
    (novelCritique : Bool) : String :=
  "You are a devil’s advocate whose job is to aggressively challenge ideas.\n" ++
  "You do not comfort, validate, or soften criticism.\n" ++
  "You expose weak assumptions, logical gaps, and failure risks.\n" ++
  "You prioritize truth over politeness.\n\n" ++
  "Analyze the following idea as a devil’s advocate.\n\n" ++
  "Idea:\n" ++ idea ++
  "\n\nContext:\n" ++ (if context = "" then "No additional context provided." else context) ++
  "\n\nMode:\n" ++ mode ++
  "\n\nIntensity:\n" ++
  (if intensity > 0 then "Stronger counter (round " ++ toString intensity ++ ")."
   else "Standard.") ++
  "\n\nNovel critique:\n" ++
  (if novelCritique then "Yes. Avoid repeating earlier critiques." else "No.") ++
  "\n\nInstructions:\n" ++
  "- Identify hidden assumptions\n" ++
  "- Argue the strongest opposing position\n" ++
  "- Highlight logical fallacies\n" ++
  "- Ask uncomfortable but fair questions\n" ++
  "- Suggest concrete improvements\n\n" ++
  "Return JSON only in this exact shape:\n" ++
  "\x7b\n  \"assumptions\": [],\n  \"counterArguments\": [],\n  \"failurePoints\": [],\n" ++
  "  \"uncomfortableQuestions\": [],\n  \"upgradeSuggestions\": []\n\x7d"

/-- Substring containment (`s` contains `pat`). -/
def strContains (s pat : String) : Prop := pat.data <:+: s.data

instance (s pat : String) : Decidable (strContains s pat) := by
  unfold strContains; infer_instance

/-! ## Revision store and session state machine -/

/-- A `Revision` record from `page.tsx` (`response` is the optional
structured result; `createdAt` the `Date.now()` timestamp). -/
structure Revision where
  id : String
  idea : String
  context : String
  mode : String
  createdAt : Nat
  response : Option AnalysisResponse
deriving DecidableEq, Repr

/-- The history update in `handleAnalyze`:
`setHistory((prev) => [newRevision, ...prev].slice(0, 8))`. -/
def recordRevision (prev : List Revision) (r : Revision) : List Revision :=
  (r :: prev).take 8

/-- One field restored by `handleUseRevision`: split the revision context
on newlines, find the first line starting with the label prefix, strip
the first occurrence of the prefix, trim; `""` when no line matches. -/
def loadField (context : String) (pre : String) : String :=
  match (splitNl context.data).find? (fun l => pre.data.isPrefixOf l) with
  | some line => ⟨trimL (replaceFirst line pre.data)⟩
  | none => ""

/-- The goal/audience/constraints triple restored by `handleUseRevision`. -/
def loadFields (context : String) : String × String × String :=
  (loadField context "Goal:", loadField context "Audience:", loadField context "Constraints:")

/-- The component state of `Home` that the claims are about. -/
structure AppState where
  idea : String
  goal : String
  audience : String
  constraints : String
  mode : String
  novelCritique : Bool
  intensity : Nat
  error : Option String
  response : Option AnalysisResponse
  rawResponse : String
  history : List Revision
  baseline : Option Revision
  revisionCount : Nat
deriving DecidableEq, Repr

/-- Initial component state (the `useState` initializers). -/
def initState : AppState :=
  { idea := "", goal := "", audience := "", constraints := "", mode := "brutal",
    novelCritique := false, intensity := 0, error := none, response := none,
    rawResponse := "", history := [], baseline := none, revisionCount := 0 }

/-- Outcome of the single outbound completion request, as observed by the
code after `fetch`: a non-success HTTP status carrying the response body
text, any thrown error (transport failure, body-JSON failure, non-`Error`
throw mapped to `"Request failed."`) carrying its message, or a success
carrying the concatenated candidate text (`""` when the response shape is
unexpected). -/
inductive FetchResult where
  | notOk : String → FetchResult
  | threw : String → FetchResult
  | okText : String → FetchResult
deriving DecidableEq, Repr

/-- `handleAnalyze` from `page.tsx`, as a transition on `AppState`.
`apiKey` is the environment credential, `fetch` the request outcome,
`newId` the `crypto.randomUUID()` value and `now` the `Date.now()`
timestamp.  The returned `Bool` records whether the network request was
issued. -/
def handleAnalyze (apiKey : String) (s : AppState) (fetch : FetchResult)
    (newId : String) (now : Nat) : AppState × Bool :=
  let s := { s with error := none, rawResponse := "" }
  if jsTrim s.idea = "" then
    ({ s with error := some "Enter an idea to attack." }, false)
  else if apiKey = "" then
    ({ s with error := some "Set NEXT_PUBLIC_GEMINI_API_KEY in your environment to run analysis." },
     false)
  else
    match fetch with
    | .notOk body =>
      ({ s with error := some (if body = "" then "Gemini request failed." else body) }, true)
    | .threw msg => ({ s with error := some msg }, true)
    | .okText text =>
      let parsed := extractJson text
      let s1 :=
        match parsed with
        | none =>
          { s with rawResponse := if text = "" then "No response text returned." else text,
                   response := none }
        | some p => { s with response := some p }
      let newRev : Revision :=
        { id := newId, idea := jsTrim s.idea,
          context := buildContext s.goal s.audience s.constraints,
          mode := s.mode, createdAt := now, response := parsed }
      ({ s1 with history := recordRevision s1.history newRev,
                 revisionCount := s1.revisionCount + 1 }, true)

/-- The user actions that mutate the session state. -/
inductive AppAction where
  | analyze : FetchResult → String → Nat → AppAction
  | goHarder : AppAction
  | clearDraft : AppAction
  | useRevision : Revision → AppAction
  | saveBaseline : AppAction
  | setIdea : String → AppAction
  | setGoal : String → AppAction
  | setAudience : String → AppAction
  | setConstraints : String → AppAction
  | setMode : String → AppAction
  | setNovel : Bool → AppAction

/-- One step of the session state machine: each `AppAction` as the
corresponding handler in `page.tsx` implements it. -/
def step (apiKey : String) (s : AppState) : AppAction → AppState
  | .analyze fetch newId now => (handleAnalyze apiKey s fetch newId now).1
  | .goHarder => { s with intensity := s.intensity + 1 }
  | .clearDraft =>
    { s with idea := "", goal := "", audience := "", constraints := "",
             response := none, rawResponse := "", error := none }
  | .useRevision r =>
    { s with idea := r.idea,
             goal := (loadFields r.context).1,
             audience := (loadFields r.context).2.1,
             constraints := (loadFields r.context).2.2,
             mode := r.mode, response := r.response, rawResponse := "" }
  | .saveBaseline => { s with baseline := s.history.head? }
  | .setIdea v => { s with idea := v }
  | .setGoal v => { s with goal := v }
  | .setAudience v => { s with audience := v }
  | .setConstraints v => { s with constraints := v }
  | .setMode v => { s with mode := v }
  | .setNovel b => { s with novelCritique := b }

/-- Run a sequence of actions. -/
def runActions (apiKey : String) (s : AppState) (acts : List AppAction) : AppState :=
  acts.foldl (step apiKey) s

/-! ## Helper lemmas -/

/-- Executable substring check, bridging to `List.IsInfix`. -/
def hasInfix : List Char → List Char → Bool
  | [], pat => pat.isEmpty
  | l@(_ :: rest), pat => pat.isPrefixOf l || hasInfix rest pat

theorem hasInfix_iff (l pat : List Char) : hasInfix l pat = true ↔ pat <:+: l := by
  induction l with
  | nil => simp [hasInfix, List.isEmpty_iff]
  | cons c rest ih =>
    simp [hasInfix, List.infix_cons_iff, List.isPrefixOf_iff_prefix, ih]

theorem dropWhile_append_all {p : Char → Bool} {xs : List Char} (ys : List Char)
    (h : ∀ c ∈ xs, p c = true) :
    (xs ++ ys).dropWhile p = ys.dropWhile p := by
  induction xs with
  | nil => rfl
  | cons c xs ih =>
    simp only [List.cons_append, List.dropWhile_cons, h c (by simp), if_true]
    exact ih fun c hc => h c (by simp [hc])

theorem skipWs_cons (c : Char) (l : List Char) (h : isJsonWs c = false) :
    skipWs (c :: l) = c :: l := by
  simp [skipWs, List.dropWhile_cons, h]

theorem hexVal_hexDigit (n : Nat) (h : n < 16) : hexVal (hexDigit n) = some n := by
  interval_cases n <;> decide

/-! ## Parser/serializer round-trip lemmas -/

theorem parseStringBody_esc (cs rest : List Char) :
    parseStringBody (escListL cs ++ '"' :: rest) = some (cs, rest) := by
  induction cs with
  | nil =>
    show parseStringBody ('"' :: rest) = _
    rw [parseStringBody.eq_def]; simp
  | cons c cs ih =>
    rw [show escListL (c :: cs) ++ '"' :: rest
          = escChar c ++ (escListL cs ++ '"' :: rest) by simp [escListL]]
    by_cases h1 : c = '"'
    · subst h1
      show parseStringBody ('\\' :: '"' :: _) = _
      rw [parseStringBody.eq_def]; simp [escDecode, ih]
    by_cases h2 : c = '\\'
    · subst h2
      show parseStringBody ('\\' :: '\\' :: _) = _
      rw [parseStringBody.eq_def]; simp [escDecode, ih]
    by_cases h3 : c = '\n'
    · subst h3
      show parseStringBody ('\\' :: 'n' :: _) = _
      rw [parseStringBody.eq_def]; simp [escDecode, ih]
    by_cases h4 : c = '\r'
    · subst h4
      show parseStringBody ('\\' :: 'r' :: _) = _
      rw [parseStringBody.eq_def]; simp [escDecode, ih]
    by_cases h5 : c = '\t'
    · subst h5
      show parseStringBody ('\\' :: 't' :: _) = _
      rw [parseStringBody.eq_def]; simp [escDecode, ih]
    by_cases h6 : c = '\x08'
    · subst h6
      show parseStringBody ('\\' :: 'b' :: _) = _
      rw [parseStringBody.eq_def]; simp [escDecode, ih]
    by_cases h7 : c = '\x0c'
    · subst h7
      show parseStringBody ('\\' :: 'f' :: _) = _
      rw [parseStringBody.eq_def]; simp [escDecode, ih]
    by_cases h8 : c.toNat < 32
    · have e1 : escChar c =
          ['\\', 'u', '0', '0', hexDigit (c.toNat / 16), hexDigit (c.toNat % 16)] := by
        simp [escChar, h1, h2, h3, h4, h5, h6, h7, h8]
      have hv1 : hexVal (hexDigit (c.toNat / 16)) = some (c.toNat / 16) :=
        hexVal_hexDigit _ (by omega)
      have hv2 : hexVal (hexDigit (c.toNat % 16)) = some (c.toNat % 16) :=
        hexVal_hexDigit _ (by omega)
      have h00 : hexVal '0' = some 0 := by decide
      rw [e1]
      show parseStringBody ('\\' :: 'u' :: '0' :: '0' :: _ :: _ :: _) = _
      rw [parseStringBody.eq_def]
      simp [hv1, hv2, h00, ih]
      rw [show c.toNat / 16 * 16 + c.toNat % 16 = c.toNat by omega]
      exact Char.ofNat_toNat c
    · have e1 : escChar c = [c] := by simp [escChar, h1, h2, h3, h4, h5, h6, h7, h8]
      rw [e1]
      show parseStringBody (c :: _) = _
      rw [parseStringBody.eq_def]
      simp [h1, h2, h8, ih]

theorem parseAux_serStr (s : String) (rest : List Char) (fuel : Nat) (h : 0 < fuel) :
    parseAux fuel .val (serStr s ++ rest) = some (.v (.str s), rest) := by
  obtain ⟨f, rfl⟩ : ∃ f, fuel = f + 1 := ⟨fuel - 1, by omega⟩
  rw [show serStr s ++ rest = '"' :: (escListL s.data ++ '"' :: rest) by
        simp [serStr]]
  simp [parseAux, skipWs_cons '"' _ (by decide), parseStringBody_esc]

theorem parseAux_strExposed (s : String) (rest : List Char) (fuel : Nat) (h : 0 < fuel) :
    parseAux fuel .val ('"' :: (escListL s.data ++ '"' :: rest))
      = some (.v (.str s), rest) := by
  rw [show ('"' :: (escListL s.data ++ '"' :: rest)) = serStr s ++ rest by simp [serStr]]
  exact parseAux_serStr s rest fuel h

theorem parseAux_serItems (t : List String) :
    ∀ (fuel : Nat) (acc : List Json) (rest : List Char), t.length < fuel →
      parseAux fuel (.elems acc) (serItems t ++ ']' :: rest)
        = some (.es (acc ++ t.map Json.str), rest) := by
  induction t with
  | nil =>
    intro fuel acc rest h
    obtain ⟨f, rfl⟩ : ∃ f, fuel = f + 1 := ⟨fuel - 1, by omega⟩
    show parseAux (f + 1) (.elems acc) (']' :: rest) = _
    simp [parseAux, skipWs_cons ']' _ (by decide)]
  | cons s t ih =>
    intro fuel acc rest h
    obtain ⟨f, rfl⟩ : ∃ f, fuel = f + 1 := ⟨fuel - 1, by omega⟩
    rw [show serItems (s :: t) ++ ']' :: rest
          = ',' :: (serStr s ++ (serItems t ++ ']' :: rest)) by simp [serItems]]
    simp [parseAux, skipWs_cons ',' _ (by decide),
          parseAux_serStr s _ f (by simp at h; omega), ih f _ _ (by simp at h; omega)]

theorem parseAux_serArr (v : List String) (rest : List Char) (fuel : Nat)
    (h : v.length < fuel) :
    parseAux fuel .val (serArr v ++ rest) = some (.v (.arr (v.map Json.str)), rest) := by
  obtain ⟨f, rfl⟩ : ∃ f, fuel = f + 1 := ⟨fuel - 1, by omega⟩
  match v with
  | [] =>
    show parseAux (f + 1) .val ('[' :: ']' :: rest) = _
    simp [parseAux, skipWs_cons '[' _ (by decide), skipWs_cons ']' _ (by decide)]
  | s :: t =>
    rw [show serArr (s :: t) ++ rest
          = '[' :: ('"' :: (escListL s.data ++ '"' :: (serItems t ++ ']' :: rest))) by
        simp [serArr, serStr]]
    simp [parseAux, skipWs_cons '[' _ (by decide), skipWs_cons '"' _ (by decide),
          parseAux_strExposed s _ f (by simp at h; omega),
          parseAux_serItems t f _ _ (by simp at h; omega)]

theorem parseAux_member (k : String) (v : List String) (rest : List Char) (fuel : Nat)
    (h : v.length + 1 < fuel) :
    parseAux fuel .member (serStr k ++ ':' :: (serArr v ++ rest))
      = some (.kv k (.arr (v.map Json.str)), rest) := by
  obtain ⟨f, rfl⟩ : ∃ f, fuel = f + 1 := ⟨fuel - 1, by omega⟩
  rw [show serStr k ++ ':' :: (serArr v ++ rest)
        = '"' :: (escListL k.data ++ '"' :: (':' :: (serArr v ++ rest))) by simp [serStr]]
  simp [parseAux, skipWs_cons '"' _ (by decide), skipWs_cons ':' _ (by decide),
        parseStringBody_esc, parseAux_serArr v rest f (by omega)]

/-- Fuel needed by the object-member loop on a serialized member list. -/
def memFuel : List (String × List String) → Nat
  | [] => 1
  | (_, v) :: t => max (v.length + 2) (memFuel t) + 1

theorem parseAux_serMembers (ms : List (String × List String)) :
    ∀ (fuel : Nat) (acc : List (String × Json)) (rest : List Char), memFuel ms ≤ fuel →
      parseAux fuel (.members acc) (serMembers ms ++ '\x7d' :: rest)
        = some (.ms (acc ++ ms.map fun p => (p.1, Json.arr (p.2.map Json.str))), rest) := by
  induction ms with
  | nil =>
    intro fuel acc rest h
    obtain ⟨f, rfl⟩ : ∃ f, fuel = f + 1 := ⟨fuel - 1, by simp [memFuel] at h; omega⟩
    show parseAux (f + 1) (.members acc) ('\x7d' :: rest) = _
    simp [parseAux, skipWs_cons '\x7d' _ (by decide)]
  | cons kv t ih =>
    obtain ⟨k, v⟩ := kv
    intro fuel acc rest h
    simp only [memFuel] at h
    obtain ⟨f, rfl⟩ : ∃ f, fuel = f + 1 := ⟨fuel - 1, by omega⟩
    rw [show serMembers ((k, v) :: t) ++ '\x7d' :: rest
          = ',' :: (serStr k ++ ':' :: (serArr v ++ (serMembers t ++ '\x7d' :: rest))) by
        simp [serMembers]]
    simp [parseAux, skipWs_cons ',' _ (by decide),
          parseAux_member k v _ f (by omega), ih f _ _ (by omega)]

/-- The four trailing members of the serialized record. -/
def ms4 (b c d e : List String) : List (String × List String) :=
  [("counterArguments", b), ("failurePoints", c),
   ("uncomfortableQuestions", d), ("upgradeSuggestions", e)]

/-- Fuel needed to parse the serialized five-field record. -/
def recFuel (a b c d e : List String) : Nat :=
  max (a.length + 2) (memFuel (ms4 b c d e)) + 1

/-- The object produced by parsing the serialized five-field record. -/
def recObj (a b c d e : List String) : Json :=
  .obj (("assumptions", .arr (a.map Json.str)) ::
    (ms4 b c d e).map fun p => (p.1, Json.arr (p.2.map Json.str)))

theorem parseAux_serRecord (a b c d e : List String) (rest : List Char) (fuel : Nat)
    (h : recFuel a b c d e ≤ fuel) :
    parseAux fuel .val (serRecordL a b c d e ++ rest)
      = some (.v (recObj a b c d e), rest) := by
  simp only [recFuel] at h
  obtain ⟨f, rfl⟩ : ∃ f, fuel = f + 1 := ⟨fuel - 1, by omega⟩
  rw [show serRecordL a b c d e ++ rest
        = '\x7b' :: ('"' :: (escListL "assumptions".data ++ '"' ::
            (':' :: (serArr a ++ (serMembers (ms4 b c d e) ++ '\x7d' :: rest))))) by
      simp [serRecordL, serInner, serStr, ms4, serMembers]]
  have hm : parseAux f .member ('"' :: (escListL "assumptions".data ++ '"' ::
      (':' :: (serArr a ++ (serMembers (ms4 b c d e) ++ '\x7d' :: rest)))))
      = some (.kv "assumptions" (.arr (a.map Json.str)),
          serMembers (ms4 b c d e) ++ '\x7d' :: rest) := by
    rw [show ('"' :: (escListL "assumptions".data ++ '"' ::
        (':' :: (serArr a ++ (serMembers (ms4 b c d e) ++ '\x7d' :: rest)))))
        = serStr "assumptions" ++ ':' ::
            (serArr a ++ (serMembers (ms4 b c d e) ++ '\x7d' :: rest)) by simp [serStr]]
    exact parseAux_member _ a _ f (by omega)
  simp [parseAux, skipWs_cons '\x7b' _ (by decide), skipWs_cons '"' _ (by decide), hm,
        parseAux_serMembers (ms4 b c d e) f _ _ (by omega), recObj]

theorem escListL_len (cs : List Char) : cs.length ≤ (escListL cs).length := by
  induction cs with
  | nil => simp [escListL]
  | cons c cs ih =>
    have h1 : 1 ≤ (escChar c).length := by
      simp only [escChar]
      split_ifs <;> simp
    simp only [escListL, List.length_append, List.length_cons]
    omega

theorem serStr_len (s : String) : 2 ≤ (serStr s).length := by
  simp [serStr]

theorem serItems_len (t : List String) : 3 * t.length ≤ (serItems t).length := by
  induction t with
  | nil => simp [serItems]
  | cons s t ih =>
    have := serStr_len s
    simp only [serItems, List.length_cons, List.length_append]
    omega

theorem serArr_len (v : List String) : v.length + 2 ≤ (serArr v).length := by
  match v with
  | [] => simp [serArr]
  | s :: t =>
    have h1 := serStr_len s
    have h2 := serItems_len t
    simp only [serArr, List.length_cons, List.length_append]
    omega

theorem serMembers_len (ms : List (String × List String)) :
    memFuel ms ≤ (serMembers ms).length + 1 := by
  induction ms with
  | nil => simp [memFuel, serMembers]
  | cons kv t ih =>
    obtain ⟨k, v⟩ := kv
    have h1 := serStr_len k
    have h2 := serArr_len v
    simp only [memFuel, serMembers, List.length_cons, List.length_append]
    omega

theorem serRecordL_len (a b c d e : List String) :
    recFuel a b c d e ≤ (serRecordL a b c d e).length + 1 := by
  have h1 := serStr_len "assumptions"
  have h2 := serArr_len a
  have h3 := serMembers_len (ms4 b c d e)
  simp only [ms4] at h3
  simp only [recFuel, serRecordL, serInner, ms4, List.length_cons, List.length_append]
  omega

theorem parseJson_serRecord (a b c d e : List String) :
    parseJson (serRecordL a b c d e) = some (recObj a b c d e) := by
  have h := parseAux_serRecord a b c d e [] ((serRecordL a b c d e).length + 1)
    (serRecordL_len a b c d e)
  rw [List.append_nil] at h
  simp [parseJson, h, skipWs]

theorem braceSpan_extract (pre mid post : List Char)
    (hpre : '\x7b' ∉ pre) (hpost : '\x7d' ∉ post) :
    braceSpan (pre ++ '\x7b' :: mid ++ '\x7d' :: post)
      = some ('\x7b' :: mid ++ ['\x7d']) := by
  have e1 : (pre ++ '\x7b' :: mid ++ '\x7d' :: post).dropWhile (fun c => !(c == '\x7b'))
      = '\x7b' :: mid ++ '\x7d' :: post := by
    rw [show pre ++ '\x7b' :: mid ++ '\x7d' :: post
          = pre ++ ('\x7b' :: mid ++ '\x7d' :: post) by simp]
    rw [dropWhile_append_all _ (fun c hc => by
      simp only [Bool.not_eq_true']
      exact beq_eq_false_iff_ne.mpr (fun hEq => hpre (hEq ▸ hc)))]
    simp [List.dropWhile_cons]
  have e2 : ('\x7b' :: mid ++ '\x7d' :: post).reverse
      = post.reverse ++ '\x7d' :: (mid.reverse ++ ['\x7b']) := by
    simp
  have e3 : (post.reverse ++ '\x7d' :: (mid.reverse ++ ['\x7b'])).dropWhile
        (fun c => !(c == '\x7d'))
      = '\x7d' :: (mid.reverse ++ ['\x7b']) := by
    rw [dropWhile_append_all _ (fun c hc => by
      simp only [Bool.not_eq_true']
      exact beq_eq_false_iff_ne.mpr (fun hEq => hpost (hEq ▸ (List.mem_reverse.mp hc))))]
    simp [List.dropWhile_cons]
  simp only [braceSpan, e1, e2, e3]
  simp

theorem safeParseArray_strs (x : List String) (hx : ∀ s ∈ x, s ≠ "") :
    safeParseArray (some (.arr (x.map Json.str))) = x := by
  simp only [safeParseArray, List.map_map]
  rw [List.map_congr_left (fun s _ => by
        simp [Function.comp, jsToString, jsToStringF] :
      ∀ s ∈ x, ((fun j => jsToString j) ∘ Json.str) s = id s)]
  rw [List.map_id]
  exact List.filter_eq_self.mpr fun s hs => by simp [hx s hs]

/-! ## Claim C1: response-extractor round trip -/

/-- **C1** (amended): for a five-field record whose array elements are all
non-empty strings, serializing to JSON and wrapping it in prose whose
leading part contains no opening brace and whose trailing part contains no
closing brace, `extractJson` reproduces the five sequences exactly. -/
theorem c1_extract_roundTrip (a b c d e : List String) (pre post : String)
    (hel : ∀ s ∈ a ++ b ++ c ++ d ++ e, s ≠ "")
    (hpre : '\x7b' ∉ pre.data) (hpost : '\x7d' ∉ post.data) :
    extractJson (pre ++ serializeRecord a b c d e ++ post)
      = some ⟨a, b, c, d, e⟩ := by
  have hdata : (pre ++ serializeRecord a b c d e ++ post).data
      = pre.data ++ '\x7b' :: serInner a b c d e ++ '\x7d' :: post.data := by
    simp [serializeRecord, serRecordL]
  simp only [extractJson, hdata, braceSpan_extract _ _ _ hpre hpost]
  rw [show ('\x7b' :: serInner a b c d e ++ ['\x7d']) = serRecordL a b c d e from rfl]
  rw [parseJson_serRecord]
  have g1 : getField (recObj a b c d e) "assumptions" = some (.arr (a.map Json.str)) := by
    simp [recObj, ms4, getField]
  have g2 : getField (recObj a b c d e) "counterArguments" = some (.arr (b.map Json.str)) := by
    simp [recObj, ms4, getField]
  have g3 : getField (recObj a b c d e) "failurePoints" = some (.arr (c.map Json.str)) := by
    simp [recObj, ms4, getField]
  have g4 : getField (recObj a b c d e) "uncomfortableQuestions"
      = some (.arr (d.map Json.str)) := by
    simp [recObj, ms4, getField]
  have g5 : getField (recObj a b c d e) "upgradeSuggestions"
      = some (.arr (e.map Json.str)) := by
    simp [recObj, ms4, getField]
  simp [g1, g2, g3, g4, g5,
      safeParseArray_strs a (fun s hs => hel s (by simp [hs])),
      safeParseArray_strs b (fun s hs => hel s (by simp [hs])),
      safeParseArray_strs c (fun s hs => hel s (by simp [hs])),
      safeParseArray_strs d (fun s hs => hel s (by simp [hs])),
      safeParseArray_strs e (fun s hs => hel s (by simp [hs]))]

set_option maxRecDepth 40000 in
/-- **C1** (counterexample to the claim as stated): the record whose
`assumptions` field is `[""]` (a sequence of strings) serializes and
extracts to `[]` — the empty-string element is dropped by the extractor's
`filter(Boolean)`, so the round trip does not reproduce every sequence of
strings. -/
theorem c1_counterexample :
    extractJson (serializeRecord [""] [] [] [] []) = some ⟨[], [], [], [], []⟩ ∧
    ([""] : List String) ≠ [] :=
  ⟨by decide, by decide⟩

/-- **C1** witness: the amended round trip at a concrete record and prose. -/
theorem c1_witness :
    extractJson ("Sure! Here is the critique: " ++
        serializeRecord ["x", " y "] ["z"] [] [] ["w"] ++ " Hope this helps.")
      = some ⟨["x", " y "], ["z"], [], [], ["w"]⟩ :=
  c1_extract_roundTrip ["x", " y "] ["z"] [] [] ["w"] _ _
    (by decide) (by decide) (by decide)

/-! ## Claim C2: per-field coercion -/

/-- **C2** (amended): a field value that is a string with non-empty *trim*
yields the one-element sequence containing the *trimmed* string; a string
with empty trim, `null`, an empty array, a missing field (`undefined`),
or any other non-sequence value yields the empty sequence. -/
theorem c2_field_coercion :
    (∀ s : String, 0 < (jsTrim s).length → safeParseArray (some (.str s)) = [jsTrim s]) ∧
    (∀ s : String, (jsTrim s).length = 0 → safeParseArray (some (.str s)) = []) ∧
    safeParseArray (some .null) = [] ∧
    safeParseArray (some (.arr [])) = [] ∧
    safeParseArray none = [] ∧
    (∀ b, safeParseArray (some (.bool b)) = []) ∧
    (∀ n, safeParseArray (some (.num n)) = []) ∧
    (∀ fields, safeParseArray (some (.obj fields)) = []) := by
  refine ⟨fun s h => ?_, fun s h => ?_, rfl, by simp [safeParseArray], rfl,
    fun b => rfl, fun n => rfl, fun fields => rfl⟩
  · simp [safeParseArray, h]
  · simp [safeParseArray, h]

/-- **C2** (counterexample to the claim as stated): the non-empty string
`" x "` is coerced to `["x"]`, not `[" x "]` (the value is trimmed), and
the non-empty string `" "` is coerced to `[]`, not `[" "]`. -/
theorem c2_counterexample :
    safeParseArray (some (.str " x ")) = ["x"] ∧ (["x"] : List String) ≠ [" x "] ∧
    safeParseArray (some (.str " ")) = [] ∧ (" " : String) ≠ "" :=
  ⟨by decide, by decide, by decide, by decide⟩

/-- **C2** witness: the amended coercion at a concrete string. -/
theorem c2_witness : safeParseArray (some (.str " hi ")) = [jsTrim " hi "] :=
  c2_field_coercion.1 " hi " (by decide)

/-! ## Claim C3: context composer -/

theorem append_ne_empty (p v : String) (hp : p.data ≠ []) : p ++ v ≠ "" := by
  intro hEq
  apply hp
  have h2 := congrArg String.data hEq
  rw [String.data_append] at h2
  rw [show ("" : String).data = [] from rfl] at h2
  exact (List.append_eq_nil.mp h2).1

/-- **C3**: for every goal/audience/constraints combination the composed
context equals the specification's description — one labelled line per
field with non-empty trimmed value, in the fixed order goal, audience,
constraints, joined with newlines — and all-empty inputs give `""`. -/
theorem c3_buildContext (g a c : String) :
    buildContext g a c = contextSpec g a c ∧
    (jsTrim g = "" → jsTrim a = "" → jsTrim c = "" → buildContext g a c = "") := by
  constructor
  · by_cases h1 : jsTrim g = "" <;> by_cases h2 : jsTrim a = "" <;>
      by_cases h3 : jsTrim c = "" <;>
      simp [buildContext, contextSpec, h1, h2, h3,
            append_ne_empty "Goal: " _ (by decide),
            append_ne_empty "Audience: " _ (by decide),
            append_ne_empty "Constraints: " _ (by decide)]
  · intro h1 h2 h3
    simp [buildContext, h1, h2, h3, joinNl]

/-- **C3** witness: concrete instantiations of both parts. -/
theorem c3_witness :
    buildContext "g" " " "c" = contextSpec "g" " " "c" ∧ buildContext "" " " "\t" = "" :=
  ⟨(c3_buildContext "g" " " "c").1, (c3_buildContext "" " " "\t").2 (by decide) (by decide) (by decide)⟩

/-! ## Claim C4: prompt builder -/

theorem sc_skip (x : String) {l pat : String} (h : strContains l pat) :
    strContains (x ++ l) pat := by
  unfold strContains at h ⊢
  rw [String.data_append]
  obtain ⟨s, t, hst⟩ := h
  exact ⟨x.data ++ s, t, by rw [← hst]; simp⟩

theorem sc_here (pat t : String) : strContains (pat ++ t) pat := by
  unfold strContains
  rw [String.data_append]
  exact ⟨[], t.data, rfl⟩

theorem sc_here2 (x pat t : String) : strContains (x ++ (pat ++ t)) (x ++ pat) := by
  unfold strContains
  simp only [String.data_append]
  exact ⟨[], t.data, by simp⟩

theorem sc_here3 (x y z t : String) :
    strContains (x ++ (y ++ (z ++ t))) (x ++ (y ++ z)) := by
  unfold strContains
  simp only [String.data_append]
  exact ⟨[], t.data, by simp⟩

set_option maxRecDepth 40000 in
/-- **C4**: with empty context and escalation counter `0` the prompt
contains the idea text, the placeholder `"No additional context
provided."` and the directive `"Standard."` in the intensity slot (so the
directive is not a `"round 1"` directive — witnessed on the
specification's concrete instance, whose prompt contains no `"round 1"`
at all); with counter `n > 0` the prompt contains the directive
`"Stronger counter (round n)."`, in particular `"round n"`. -/
theorem c4_buildPrompt :
    (∀ (idea mode : String) (novel : Bool),
      strContains (buildPrompt idea "" mode 0 novel) idea ∧
      strContains (buildPrompt idea "" mode 0 novel) "No additional context provided." ∧
      strContains (buildPrompt idea "" mode 0 novel) "Intensity:\nStandard.") ∧
    ¬ strContains (buildPrompt "X" "" "Brutal" 0 false) "round 1" ∧
    (∀ (n : Nat), 0 < n → ∀ (idea mode : String) (novel : Bool),
      strContains (buildPrompt idea "" mode n novel)
        ("Stronger counter (round " ++ toString n ++ ").") ∧
      strContains (buildPrompt idea "" mode n novel) ("round " ++ toString n)) := by
  refine ⟨fun idea mode novel => ⟨?_, ?_, ?_⟩, ?_, fun n hn idea mode novel => ⟨?_, ?_⟩⟩
  · unfold buildPrompt
    simp only [String.append_assoc]
    repeat first | exact sc_here _ _ | apply sc_skip
  · unfold buildPrompt
    rw [if_pos rfl]
    simp only [String.append_assoc]
    repeat first | exact sc_here _ _ | apply sc_skip
  · unfold buildPrompt
    rw [if_neg (by omega : ¬ ((0 : Nat) > 0))]
    rw [show ("\n\nIntensity:\n" : String) = "\n\n" ++ "Intensity:\n" by decide]
    rw [show ("Intensity:\nStandard." : String) = "Intensity:\n" ++ "Standard." by decide]
    simp only [String.append_assoc]
    repeat first | exact sc_here2 _ _ _ | apply sc_skip
  · rw [strContains, ← hasInfix_iff]
    decide
  · unfold buildPrompt
    rw [if_pos (by omega : n > 0)]
    simp only [String.append_assoc]
    repeat first | exact sc_here3 _ _ _ _ | apply sc_skip
  · unfold buildPrompt
    rw [if_pos (by omega : n > 0)]
    rw [show ("Stronger counter (round " : String)
          = "Stronger counter (" ++ "round " by decide]
    simp only [String.append_assoc]
    repeat first | exact sc_here2 _ _ _ | apply sc_skip

/-- **C4** witness: the escalation-3 instance of the specification, with
the directive text evaluated. -/
theorem c4_witness :
    strContains (buildPrompt "X" "" "Brutal" 3 false) ("round " ++ toString 3) ∧
    ("round " ++ toString 3 : String) = "round 3" :=
  ⟨(c4_buildPrompt.2.2 3 (by decide) "X" "Brutal" false).2, by decide⟩

/-! ## Claims C5, C7, C8, C9, C10: revision store and session state machine -/

theorem handleAnalyze_intensity (apiKey : String) (s : AppState) (fetch : FetchResult)
    (newId : String) (now : Nat) :
    (handleAnalyze apiKey s fetch newId now).1.intensity = s.intensity := by
  unfold handleAnalyze
  dsimp only
  split_ifs with h1 h2
  · rfl
  · rfl
  · cases fetch with
    | notOk body => rfl
    | threw msg => rfl
    | okText text => cases hp : extractJson text <;> simp [hp]

/-- **C5**: the recorded history is bounded by 8: recording keeps the
length at most 8, recording on a full history of 8 prepends the new
revision and drops exactly the oldest entry (`dropLast`), keeping length
8, and any sequence of recordings from a history of at most 8 stays at
most 8. -/
theorem c5_history_bound :
    (∀ (prev : List Revision) (r : Revision),
      prev.length ≤ 8 → (recordRevision prev r).length ≤ 8) ∧
    (∀ (prev : List Revision) (r : Revision), prev.length = 8 →
      recordRevision prev r = r :: prev.dropLast ∧ (recordRevision prev r).length = 8) ∧
    (∀ (init rs : List Revision), init.length ≤ 8 →
      (rs.foldl recordRevision init).length ≤ 8) := by
  refine ⟨fun prev r h => ?_, fun prev r h => ⟨?_, ?_⟩, fun init rs => ?_⟩
  · simp [recordRevision]
  · have e : recordRevision prev r = r :: prev.take 7 := rfl
    rw [e, List.dropLast_eq_take, h]
  · simp [recordRevision, h]
  · induction rs generalizing init with
    | nil => intro h; simpa using h
    | cons r rs ih =>
      intro h
      simp only [List.foldl_cons]
      exact ih _ (by simp [recordRevision])

def dummyRev : Revision :=
  { id := "", idea := "", context := "", mode := "brutal", createdAt := 0, response := none }

def dummyRev2 : Revision :=
  { id := "new", idea := "i", context := "", mode := "brutal", createdAt := 1, response := none }

/-- **C5** witness: recording a 9th revision on a full history of 8. -/
theorem c5_witness :
    recordRevision (List.replicate 8 dummyRev) dummyRev2
        = dummyRev2 :: (List.replicate 8 dummyRev).dropLast ∧
    (recordRevision (List.replicate 8 dummyRev) dummyRev2).length = 8 :=
  c5_history_bound.2.1 _ _ (by decide)

/-- **C7**: a revision is recorded exactly in the success case: when
validation passes and the fetch yields text (parsed or not, the raw-text
fallback included), the history becomes `recordRevision` of the new
revision; a validation failure, a non-success HTTP status, or a thrown
transport error leaves the history exactly unchanged. -/
theorem c7_history_atomicity (apiKey : String) (s : AppState) (fetch : FetchResult)
    (newId : String) (now : Nat) :
    (∀ text, fetch = .okText text → jsTrim s.idea ≠ "" → apiKey ≠ "" →
      (handleAnalyze apiKey s fetch newId now).1.history
        = recordRevision s.history
            { id := newId, idea := jsTrim s.idea,
              context := buildContext s.goal s.audience s.constraints,
              mode := s.mode, createdAt := now, response := extractJson text }) ∧
    (jsTrim s.idea = "" ∨ apiKey = "" →
      (handleAnalyze apiKey s fetch newId now).1.history = s.history) ∧
    (∀ body, fetch = .notOk body →
      (handleAnalyze apiKey s fetch newId now).1.history = s.history) ∧
    (∀ msg, fetch = .threw msg →
      (handleAnalyze apiKey s fetch newId now).1.history = s.history) := by
  refine ⟨fun text hf h1 h2 => ?_, fun h => ?_, fun body hf => ?_, fun msg hf => ?_⟩
  · subst hf
    unfold handleAnalyze
    dsimp only
    rw [if_neg h1, if_neg h2]
    cases hp : extractJson text <;> simp [hp]
  · unfold handleAnalyze
    dsimp only
    rcases h with h | h
    · rw [if_pos h]
    · by_cases h1 : jsTrim s.idea = ""
      · rw [if_pos h1]
      · rw [if_neg h1, if_pos h]
  · subst hf
    unfold handleAnalyze
    dsimp only
    split_ifs <;> rfl
  · subst hf
    unfold handleAnalyze
    dsimp only
    split_ifs <;> rfl

/-- **C7** witness: a raw-text-fallback success records a revision. -/
theorem c7_witness :
    (handleAnalyze "k" { initState with idea := "i" } (.okText "no json") "id" 7).1.history
      = recordRevision []
          { id := "id", idea := jsTrim "i", context := buildContext "" "" "",
            mode := "brutal", createdAt := 7, response := extractJson "no json" } :=
  (c7_history_atomicity "k" { initState with idea := "i" } (.okText "no json") "id" 7).1
    "no json" rfl (by decide) (by decide)

/-- **C8**: when the trimmed idea is empty or the credential is empty,
the handler fails synchronously: no network request is issued, the
history is unchanged, and the corresponding user-visible error message is
set. -/
theorem c8_validation (apiKey : String) (s : AppState) (fetch : FetchResult)
    (newId : String) (now : Nat) (h : jsTrim s.idea = "" ∨ apiKey = "") :
    (handleAnalyze apiKey s fetch newId now).2 = false ∧
    (handleAnalyze apiKey s fetch newId now).1.history = s.history ∧
    (handleAnalyze apiKey s fetch newId now).1.error
      = some (if jsTrim s.idea = "" then "Enter an idea to attack."
              else "Set NEXT_PUBLIC_GEMINI_API_KEY in your environment to run analysis.") := by
  unfold handleAnalyze
  dsimp only
  rcases h with h | h
  · rw [if_pos h]
    simp [h]
  · by_cases h1 : jsTrim s.idea = ""
    · rw [if_pos h1]
      simp [h1]
    · rw [if_neg h1, if_pos h]
      simp [h1]

/-- **C8** witness: a missing credential with a non-empty idea. -/
theorem c8_witness :
    (handleAnalyze "" { initState with idea := "i" } (.okText "x") "id" 0).2 = false ∧
    (handleAnalyze "" { initState with idea := "i" } (.okText "x") "id" 0).1.history = [] ∧
    (handleAnalyze "" { initState with idea := "i" } (.okText "x") "id" 0).1.error
      = some "Set NEXT_PUBLIC_GEMINI_API_KEY in your environment to run analysis." :=
  c8_validation "" { initState with idea := "i" } (.okText "x") "id" 0 (Or.inr rfl)

/-- **C9**: the escalation counter starts at 0, every session action
leaves it unchanged or larger, `goHarder` increments it by exactly one,
and along every action sequence it is non-decreasing. -/
theorem c9_escalation_monotone :
    initState.intensity = 0 ∧
    (∀ (apiKey : String) (s : AppState) (a : AppAction),
      s.intensity ≤ (step apiKey s a).intensity) ∧
    (∀ (apiKey : String) (s : AppState),
      (step apiKey s .goHarder).intensity = s.intensity + 1) ∧
    (∀ (apiKey : String) (s : AppState) (acts : List AppAction),
      s.intensity ≤ (runActions apiKey s acts).intensity) := by
  have hstep : ∀ (apiKey : String) (s : AppState) (a : AppAction),
      s.intensity ≤ (step apiKey s a).intensity := by
    intro apiKey s a
    cases a <;> simp [step, handleAnalyze_intensity]
  refine ⟨rfl, hstep, fun apiKey s => rfl, fun apiKey s acts => ?_⟩
  induction acts generalizing s with
  | nil => simp [runActions]
  | cons a acts ih =>
    calc s.intensity ≤ (step apiKey s a).intensity := hstep apiKey s a
      _ ≤ (runActions apiKey (step apiKey s a) acts).intensity := ih _
      _ = (runActions apiKey s (a :: acts)).intensity := rfl

/-- **C10**: the "save current as baseline" action sets the baseline to
the head (newest entry) of the history — `none` when the history is
empty — and its result does not depend on the current draft text. -/
theorem c10_saveBaseline (apiKey : String) (s : AppState) :
    (step apiKey s .saveBaseline).baseline = s.history.head? ∧
    (s.history = [] → (step apiKey s .saveBaseline).baseline = none) ∧
    (∀ v : String, (step apiKey { s with idea := v } .saveBaseline).baseline
        = (step apiKey s .saveBaseline).baseline) := by
  refine ⟨rfl, fun h => ?_, fun v => rfl⟩
  simp [step, h]

/-- **C10** witness: saving the baseline with an empty history clears it. -/
theorem c10_witness : (step "k" initState .saveBaseline).baseline = none :=
  (c10_saveBaseline "k" initState).2.1 rfl

/-! ## Claim C6: loadRevision round trip -/

theorem dropWhile_idem (p : Char → Bool) (l : List Char) :
    (l.dropWhile p).dropWhile p = l.dropWhile p := by
  induction l with
  | nil => rfl
  | cons c l ih =>
    rw [List.dropWhile_cons]
    split_ifs with h
    · exact ih
    · rw [List.dropWhile_cons, if_neg h]

theorem dropWhile_eq_self_of_prefix (p : Char → Bool) {m d : List Char}
    (hpre : m <+: d) (hd : d.dropWhile p = d) : m.dropWhile p = m := by
  cases m with
  | nil => rfl
  | cons c m' =>
    obtain ⟨t, rfl⟩ := hpre
    rw [List.cons_append, List.dropWhile_cons] at hd
    split_ifs at hd with h
    · exfalso
      have hle : ((m' ++ t).dropWhile p).length ≤ (m' ++ t).length :=
        (List.dropWhile_suffix p).sublist.length_le
      have := congrArg List.length hd
      simp [List.length_append] at this hle
      omega
    · rw [List.dropWhile_cons, if_neg h]

theorem trimL_pref (l : List Char) : trimL l <+: l.dropWhile isJsWs := by
  have hsuf : (l.dropWhile isJsWs).reverse.dropWhile isJsWs <:+ (l.dropWhile isJsWs).reverse :=
    List.dropWhile_suffix isJsWs
  have h2 := (@List.reverse_prefix Char
    ((l.dropWhile isJsWs).reverse.dropWhile isJsWs)
    ((l.dropWhile isJsWs).reverse)).mpr hsuf
  rw [List.reverse_reverse] at h2
  rw [trimL]
  exact h2

theorem trimL_idem (l : List Char) : trimL (trimL l) = trimL l := by
  have hA : (trimL l).dropWhile isJsWs = trimL l :=
    dropWhile_eq_self_of_prefix isJsWs (trimL_pref l) (dropWhile_idem isJsWs l)
  have hB : (trimL l).reverse.dropWhile isJsWs = (trimL l).reverse := by
    rw [trimL, List.reverse_reverse]
    exact dropWhile_idem isJsWs _
  rw [trimL, hA, hB, List.reverse_reverse]

theorem mem_trimL {c : Char} {l : List Char} (h : c ∈ trimL l) : c ∈ l := by
  rw [trimL, List.mem_reverse] at h
  have h2 := (List.dropWhile_suffix isJsWs).sublist.mem h
  rw [List.mem_reverse] at h2
  exact (List.dropWhile_suffix isJsWs).sublist.mem h2

theorem trimL_cons_ws {c : Char} (l : List Char) (h : isJsWs c = true) :
    trimL (c :: l) = trimL l := by
  simp [trimL, List.dropWhile_cons, h]

theorem splitNl_no_nl {l : List Char} (h : '\n' ∉ l) : splitNl l = [l] := by
  induction l with
  | nil => rfl
  | cons c l ih =>
    rw [splitNl]
    rw [if_neg (by simp at h; tauto)]
    rw [ih (by simp at h; tauto)]

theorem splitNl_append {x : List Char} (y : List Char) (h : '\n' ∉ x) :
    splitNl (x ++ '\n' :: y) = x :: splitNl y := by
  induction x with
  | nil => simp [splitNl]
  | cons c x ih =>
    rw [List.cons_append, splitNl, if_neg (by simp at h; tauto),
        ih (by simp at h; tauto)]

theorem replaceFirst_dropPat (pat rest : List Char) :
    replaceFirst (pat ++ rest) pat = rest := by
  cases hc : pat ++ rest with
  | nil =>
    have := List.append_eq_nil.mp hc
    simp [this.1, this.2, replaceFirst]
  | cons c t =>
    rw [← hc, show pat ++ rest = (match pat ++ rest with
      | [] => ([] : List Char)
      | c :: t => c :: t) from by rw [hc]]
    rw [hc]
    rw [replaceFirst]
    rw [if_pos (List.isPrefixOf_iff_prefix.mpr ⟨rest, hc⟩)]
    rw [← hc, List.drop_left]

theorem loadField_compute (ctx : String) (pre : String) (line : List Char)
    (hfind : (splitNl ctx.data).find? (fun l => pre.data.isPrefixOf l) = some line)
    (v : List Char) (hline : line = pre.data ++ v) :
    loadField ctx pre = ⟨trimL v⟩ := by
  rw [loadField, hfind, hline]
  simp only [replaceFirst_dropPat]

/-- **C6** (amended): for single-line goal/audience/constraints values
with non-empty trim, composing them with the context composer and then
re-splitting as `handleUseRevision` does restores exactly the *trimmed*
values (hence exactly the originals whenever they carry no surrounding
whitespace). -/
theorem c6_loadRevision_roundTrip (G A C : String)
    (hG : '\n' ∉ G.data) (hA : '\n' ∉ A.data) (hC : '\n' ∉ C.data)
    (hg : jsTrim G ≠ "") (ha : jsTrim A ≠ "") (hc : jsTrim C ≠ "") :
    loadFields (buildContext G A C) = (jsTrim G, jsTrim A, jsTrim C) := by
  have hbc : buildContext G A C
      = ("Goal: " ++ jsTrim G) ++ "\n" ++ (("Audience: " ++ jsTrim A) ++ "\n"
          ++ ("Constraints: " ++ jsTrim C)) := by
    simp [buildContext, hg, ha, hc, joinNl,
          append_ne_empty "Goal: " _ (by decide),
          append_ne_empty "Audience: " _ (by decide),
          append_ne_empty "Constraints: " _ (by decide)]
  have hgd : '\n' ∉ (jsTrim G).data := fun hmem => hG (mem_trimL hmem)
  have had : '\n' ∉ (jsTrim A).data := fun hmem => hA (mem_trimL hmem)
  have hcd : '\n' ∉ (jsTrim C).data := fun hmem => hC (mem_trimL hmem)
  have hsplit : splitNl (buildContext G A C).data
      = [("Goal: ".data ++ (jsTrim G).data),
         ("Audience: ".data ++ (jsTrim A).data),
         ("Constraints: ".data ++ (jsTrim C).data)] := by
    rw [hbc]
    repeat rw [String.data_append]
    rw [show ("\n" : String).data = ['\n'] from rfl]
    rw [show ("Goal: ".data ++ (jsTrim G).data) ++ ['\n']
          ++ (("Audience: ".data ++ (jsTrim A).data) ++ ['\n']
              ++ ("Constraints: ".data ++ (jsTrim C).data))
        = ("Goal: ".data ++ (jsTrim G).data) ++ '\n'
            :: (("Audience: ".data ++ (jsTrim A).data) ++ '\n'
              :: ("Constraints: ".data ++ (jsTrim C).data)) by simp]
    rw [splitNl_append _ (by
      simp only [List.mem_append]
      rintro (hmem | hmem)
      · revert hmem; decide
      · exact hgd hmem)]
    rw [splitNl_append _ (by
      simp only [List.mem_append]
      rintro (hmem | hmem)
      · revert hmem; decide
      · exact had hmem)]
    rw [splitNl_no_nl (by
      simp only [List.mem_append]
      rintro (hmem | hmem)
      · revert hmem; decide
      · exact hcd hmem)]
  have hpG : ("Goal:".data.isPrefixOf ("Goal: ".data ++ (jsTrim G).data)) = true :=
    List.isPrefixOf_iff_prefix.mpr ⟨' ' :: (jsTrim G).data, by simp⟩
  have hpA : ("Audience:".data.isPrefixOf ("Audience: ".data ++ (jsTrim A).data)) = true :=
    List.isPrefixOf_iff_prefix.mpr ⟨' ' :: (jsTrim A).data, by simp⟩
  have hpC : ("Constraints:".data.isPrefixOf ("Constraints: ".data ++ (jsTrim C).data)) = true :=
    List.isPrefixOf_iff_prefix.mpr ⟨' ' :: (jsTrim C).data, by simp⟩
  have hnAG : ("Audience:".data.isPrefixOf ("Goal: ".data ++ (jsTrim G).data)) = false := by
    rw [show "Goal: ".data ++ (jsTrim G).data
          = 'G' :: ("oal: ".data ++ (jsTrim G).data) by simp]
    rw [show "Audience:".data = 'A' :: "udience:".data from rfl]
    simp [List.isPrefixOf]
  have hnCG : ("Constraints:".data.isPrefixOf ("Goal: ".data ++ (jsTrim G).data)) = false := by
    rw [show "Goal: ".data ++ (jsTrim G).data
          = 'G' :: ("oal: ".data ++ (jsTrim G).data) by simp]
    rw [show "Constraints:".data = 'C' :: "onstraints:".data from rfl]
    simp [List.isPrefixOf]
  have hnCA : ("Constraints:".data.isPrefixOf ("Audience: ".data ++ (jsTrim A).data)) = false := by
    rw [show "Audience: ".data ++ (jsTrim A).data
          = 'A' :: ("udience: ".data ++ (jsTrim A).data) by simp]
    rw [show "Constraints:".data = 'C' :: "onstraints:".data from rfl]
    simp [List.isPrefixOf]
  have e1 : loadField (buildContext G A C) "Goal:" = ⟨trimL (' ' :: (jsTrim G).data)⟩ :=
    loadField_compute _ _ ("Goal: ".data ++ (jsTrim G).data)
      (by rw [hsplit]; rw [List.find?_cons_of_pos _ hpG])
      (' ' :: (jsTrim G).data) (by simp)
  have e2 : loadField (buildContext G A C) "Audience:"
      = ⟨trimL (' ' :: (jsTrim A).data)⟩ :=
    loadField_compute _ _ ("Audience: ".data ++ (jsTrim A).data)
      (by rw [hsplit]
          rw [List.find?_cons_of_neg _ (by simp [hnAG]), List.find?_cons_of_pos _ hpA])
      (' ' :: (jsTrim A).data) (by simp)
  have e3 : loadField (buildContext G A C) "Constraints:"
      = ⟨trimL (' ' :: (jsTrim C).data)⟩ :=
    loadField_compute _ _ ("Constraints: ".data ++ (jsTrim C).data)
      (by rw [hsplit]
          rw [List.find?_cons_of_neg _ (by simp [hnCG]),
              List.find?_cons_of_neg _ (by simp [hnCA]), List.find?_cons_of_pos _ hpC])
      (' ' :: (jsTrim C).data) (by simp)
  have htrim : ∀ s : String, trimL (' ' :: (jsTrim s).data) = (jsTrim s).data := by
    intro s
    rw [trimL_cons_ws _ (by decide)]
    exact trimL_idem s.data
  rw [loadFields, e1, e2, e3, htrim G, htrim A, htrim C]

/-- **C6** (counterexample to the claim as stated): the non-empty
single-line goal `" G "` round-trips to `"G"`, not `" G "` — the loader
trims the line remainder. -/
theorem c6_counterexample :
    loadFields (buildContext " G " "A" "C") = ("G", "A", "C") ∧ (" G " : String) ≠ "G" :=
  ⟨by decide, by decide⟩

/-- **C6** witness: already-trimmed values round-trip exactly. -/
theorem c6_witness :
    loadFields (buildContext "G" "A" "C") = (jsTrim "G", jsTrim "A", jsTrim "C") :=
  c6_loadRevision_roundTrip "G" "A" "C" (by decide) (by decide) (by decide)
    (by decide) (by decide) (by decide)
